import Mathlib

/-!
# UnitFlow (`src/script.js`): conversion engine and history store

A shallow embedding of the conversion functions, the history functions and the
debounced history timer of `script.js`, followed by the properties proved about
them.

## Numbers

JavaScript numbers are IEEE-754 binary64 values.  `JSNumber` keeps the finite
ones by their exact rational value, together with the two infinities and NaN
(`-0` and `+0` are identified; the program never divides by a zero).  Every
arithmetic operation computes the exact rational result and hands it to the
rounding of the chosen `Arith`:

* `Arith.binary64` rounds to the nearest binary64 value, ties to even: this is
  what the program does when it runs;
* `Arith.exact` does not round: it is the arithmetic of the rationals, the
  idealisation in which the algebraic laws of the conversion are stated.
-/

namespace UnitFlow

/-! ## Numbers -/

/-- A JavaScript number: a finite value (kept as the rational it denotes), an
infinity with its sign, or NaN.  Every rational is admitted as a finite value;
the binary64 values are among them, and the results of the binary64
operations are binary64 values. -/
inductive JSNumber where
  | fin (q : ℚ)
  | inf (neg : Bool)
  | nan
  deriving DecidableEq

/-- The two arithmetics the embedding is read in. -/
inductive Arith where
  | exact
  | binary64
  deriving DecidableEq

/-- Integer nearest to `n / d`, ties to the even one (`d > 0`). -/
def roundHalfEven (n d : Nat) : Nat :=
  let q := n / d
  let r := n % d
  if 2 * r < d then q
  else if d < 2 * r then q + 1
  else if q % 2 = 0 then q else q + 1

/-- Halvings of `n` down to 1, at most `fuel` of them. -/
def log2Aux : Nat → Nat → Nat
  | 0, _ => 0
  | fuel + 1, n => if n < 2 then 0 else log2Aux fuel (n / 2) + 1

/-- Floor of the binary logarithm of `n` (0 for `n = 0`); the fuel `n` is
never used up. -/
def log2 (n : Nat) : Nat := log2Aux n n

/-- Floor of the binary logarithm of `n / d` (`n, d > 0`). -/
def floorLog2 (n d : Nat) : Int :=
  let k : Int := (log2 n : Int) - (log2 d : Int)
  if 0 ≤ k then (if n < d * 2 ^ k.toNat then k - 1 else k)
  else (if n * 2 ^ (-k).toNat < d then k - 1 else k)

/-- The binary64 magnitude nearest to `n / d` (`n, d > 0`), ties to even: 53
significant bits, exponents from -1022 (subnormals below). -/
def roundMagnitude (n d : Nat) : ℚ :=
  let e := max (floorLog2 n d) (-1022)
  let s := e - 52
  if 0 ≤ s then ((roundHalfEven n (d * 2 ^ s.toNat) * 2 ^ s.toNat : Nat) : ℚ)
  else (roundHalfEven (n * 2 ^ (-s).toNat) d : ℚ) / ((2 ^ (-s).toNat : Nat) : ℚ)

/-- Round a rational to binary64, round-to-nearest ties-to-even, overflow to
an infinity. -/
def roundDouble (q : ℚ) : JSNumber :=
  if q = 0 then .fin 0 else
  let r := roundMagnitude q.num.natAbs q.den
  if (2 : ℚ) ^ 1024 ≤ r then .inf (decide (q < 0))
  else .fin (if q < 0 then -r else r)

/-- The rounding applied to the exact result of an operation or to a literal. -/
def rnd : Arith → ℚ → JSNumber
  | .exact, q => .fin q
  | .binary64, q => roundDouble q

namespace JSNumber

/-- Addition `a + b`. -/
def add (ar : Arith) : JSNumber → JSNumber → JSNumber
  | nan, _ => nan
  | _, nan => nan
  | inf a, inf b => if a = b then inf a else nan
  | inf a, fin _ => inf a
  | fin _, inf b => inf b
  | fin x, fin y => rnd ar (x + y)

/-- Subtraction `a - b`. -/
def sub (ar : Arith) : JSNumber → JSNumber → JSNumber
  | nan, _ => nan
  | _, nan => nan
  | inf a, inf b => if a = b then nan else inf a
  | inf a, fin _ => inf a
  | fin _, inf b => inf (!b)
  | fin x, fin y => rnd ar (x - y)

/-- Multiplication `a * b`. -/
def mul (ar : Arith) : JSNumber → JSNumber → JSNumber
  | nan, _ => nan
  | _, nan => nan
  | inf a, inf b => inf (a != b)
  | inf a, fin y => if y = 0 then nan else inf (a != decide (y < 0))
  | fin x, inf b => if x = 0 then nan else inf (decide (x < 0) != b)
  | fin x, fin y => rnd ar (x * y)

/-- Division `a / b` (a zero divisor is read as `+0`). -/
def div (ar : Arith) : JSNumber → JSNumber → JSNumber
  | nan, _ => nan
  | _, nan => nan
  | inf _, inf _ => nan
  | inf a, fin y => inf (a != decide (y < 0))
  | fin _, inf _ => fin 0
  | fin x, fin y =>
    if y = 0 then (if x = 0 then nan else inf (decide (x < 0)))
    else rnd ar (x / y)

end JSNumber

/-- A numeric literal of the source text, such as `0.000621371`. -/
def lit (ar : Arith) (q : ℚ) : JSNumber := rnd ar q

/-- `ToNumber` on a value that may be `undefined` (`none`): `undefined` gives NaN. -/
def toNumber : Option JSNumber → JSNumber
  | some x => x
  | none => .nan

/-! ## 1. Conversion data -/

/-- The select values of `categorySelect`: the keys of `unitsData`. -/
inductive Category where
  | length | weight | temperature | area | volume | speed | time | data
  deriving DecidableEq

/-- The rate tables of `unitsData`, in source order.  The entry of
`temperature` holds no rates (only the list `temperatureUnits`). -/
def unitsData (ar : Arith) : Category → List (String × JSNumber)
  | .length =>
    [("meters", lit ar 1), ("kilometers", lit ar 0.001), ("centimeters", lit ar 100),
     ("millimeters", lit ar 1000), ("miles", lit ar 0.000621371), ("yards", lit ar 1.09361),
     ("feet", lit ar 3.28084), ("inches", lit ar 39.3701)]
  | .weight =>
    [("kilograms", lit ar 1), ("grams", lit ar 1000), ("milligrams", lit ar 1000000),
     ("pounds", lit ar 2.20462), ("ounces", lit ar 35.274), ("metric_tons", lit ar 0.001)]
  | .temperature => []
  | .area =>
    [("square_meters", lit ar 1), ("square_kilometers", lit ar 0.000001),
     ("square_miles", lit ar 3.861e-7), ("square_yards", lit ar 1.19599),
     ("square_feet", lit ar 10.7639), ("acres", lit ar 0.000247105),
     ("hectares", lit ar 0.0001)]
  | .volume =>
    [("liters", lit ar 1), ("milliliters", lit ar 1000), ("cubic_meters", lit ar 0.001),
     ("gallons", lit ar 0.264172), ("quarts", lit ar 1.05669), ("pints", lit ar 2.11338),
     ("cups", lit ar 4.22675)]
  | .speed =>
    [("meters_per_second", lit ar 1), ("kilometers_per_hour", lit ar 3.6),
     ("miles_per_hour", lit ar 2.23694), ("knots", lit ar 1.94384),
     ("feet_per_second", lit ar 3.28084)]
  | .time =>
    [("seconds", lit ar 1), ("milliseconds", lit ar 1000),
     ("minutes", JSNumber.div ar (lit ar 1) (lit ar 60)),
     ("hours", JSNumber.div ar (lit ar 1) (lit ar 3600)),
     ("days", JSNumber.div ar (lit ar 1) (lit ar 86400)),
     ("weeks", JSNumber.div ar (lit ar 1) (lit ar 604800)),
     ("years", JSNumber.div ar (lit ar 1) (lit ar 31536000))]
  | .data =>
    [("bits", lit ar 8), ("bytes", lit ar 1), ("kilobytes", lit ar 0.0009765625),
     ("megabytes", lit ar 9.5367e-7), ("gigabytes", lit ar 9.3132e-10),
     ("terabytes", lit ar 9.0949e-13)]

/-- The list `unitsData.temperature.units`. -/
def temperatureUnits : List String := ["celsius", "fahrenheit", "kelvin"]

/-- The unit names of a category, as `updateUnits` puts them in both selects. -/
def unitNames (ar : Arith) (category : Category) : List String :=
  if category = .temperature then temperatureUnits
  else (unitsData ar category).map Prod.fst

/-- The property read `rates[unit]`, as a number: a missing key reads
`undefined`, which arithmetic turns into NaN. -/
def rateOf (ar : Arith) (category : Category) (unit : String) : JSNumber :=
  toNumber ((unitsData ar category).lookup unit)

/-! ## 4. Core functions -/

/-- The function `convertTemperature(value, from, to)`; `none` is `undefined`
(returned when `from` is no temperature unit and `to` is `'celsius'`). -/
def convertTemperature (ar : Arith) (value : JSNumber) (fromUnit toUnit : String) :
    Option JSNumber :=
  if fromUnit = toUnit then some value
  else
    let celsius : Option JSNumber :=
      if fromUnit = "celsius" then some value
      else if fromUnit = "fahrenheit" then
        some (JSNumber.div ar (JSNumber.mul ar (JSNumber.sub ar value (lit ar 32)) (lit ar 5))
          (lit ar 9))
      else if fromUnit = "kelvin" then some (JSNumber.sub ar value (lit ar 273.15))
      else none
    if toUnit = "celsius" then celsius
    else if toUnit = "fahrenheit" then
      some (JSNumber.add ar
        (JSNumber.div ar (JSNumber.mul ar (toNumber celsius) (lit ar 9)) (lit ar 5))
        (lit ar 32))
    else if toUnit = "kelvin" then some (JSNumber.add ar (toNumber celsius) (lit ar 273.15))
    else some value

/-- The value of `result` in `convertValue` (the `if`/`else` on
`currentCategory`), for a source value that passed the `isNaN` guard. -/
def conversionResult (ar : Arith) (currentCategory : Category) (value : JSNumber)
    (fromUnit toUnit : String) : Option JSNumber :=
  if currentCategory = .temperature then convertTemperature ar value fromUnit toUnit
  else
    let baseValue := JSNumber.div ar value (rateOf ar currentCategory fromUnit)
    some (JSNumber.mul ar baseValue (rateOf ar currentCategory toUnit))

/-! ## Texts of the value fields -/

/-- The errors the program can raise. -/
inductive JSError where
  | rangeError
  | typeError
  | syntaxError
  deriving DecidableEq

/-- The texts written to and read from the value fields: the empty string, a
decimal produced by `toFixed` (`fixed neg n f` has the digits of `n` with the
point before the last `f` of them, and a leading `-` when `neg`), or
`Number::toString x`, which `toFixed` returns for NaN, the infinities and
values of magnitude at least `10^21`. -/
inductive NumText where
  | empty
  | fixed (neg : Bool) (n : Nat) (f : Nat)
  | num (x : JSNumber)
  deriving DecidableEq

/-- The integer `n` for which `n / 10^f` is nearest to `q` (`q ≥ 0`), the
larger one on a tie: the digit selection of `Number.prototype.toFixed`. -/
def fixedDigits (q : ℚ) (f : Nat) : Nat :=
  (2 * q.num.natAbs * 10 ^ f + q.den) / (2 * q.den)

/-- The text `x.toFixed(f)` for `0 ≤ f ≤ 100`. -/
def toFixedText (x : JSNumber) (f : Nat) : NumText :=
  match x with
  | .fin q =>
    if (10 : ℚ) ^ 21 ≤ |q| then .num x
    else .fixed (decide (q < 0)) (fixedDigits |q| f) f
  | _ => .num x

/-- The method `x.toFixed(digits)`: a `RangeError` outside `0..100`. -/
def toFixed (x : JSNumber) (digits : Int) : Except JSError NumText :=
  if digits < 0 ∨ 100 < digits then .error .rangeError
  else .ok (toFixedText x digits.toNat)

/-- The function `parseFloat` on the text of a value field: the decimal is read
exactly and rounded to the nearest number; `Number::toString` is read back as
the number it came from; the empty text gives NaN. -/
def parseFloat (ar : Arith) : NumText → JSNumber
  | .empty => .nan
  | .fixed neg n f => rnd ar (if neg then -((n : ℚ) / 10 ^ f) else (n : ℚ) / 10 ^ f)
  | .num x => x

/-- The text of `formulaText`: a plain string, or the line
`1 fromName = ratio toName` of `updateFormula`. -/
inductive FormulaText where
  | text (s : String)
  | ratio (fromName : String) (ratio : NumText) (toName : String)
  deriving DecidableEq

/-- The replacement `unit.replace(/_/g, ' ')`. -/
def spaced (unit : String) : String :=
  String.mk (unit.data.map (fun c => if c = '_' then ' ' else c))

/-! ## 3. State -/

/-- An item of `history`, as `addToHistoryUI` builds it. -/
structure HistoryItem where
  id : Nat
  fromVal : JSNumber
  fromUnit : String
  toVal : NumText
  toUnit : String
  category : Category
  deriving DecidableEq

/-- What `JSON.parse` makes of a stored history text: a `SyntaxError`, a falsy
value (`null`, `false`, `0`, `""`), or a list of items (the only truthy values
the program stores under the history key). -/
inductive Parsed where
  | syntaxError
  | falsy
  | log (items : List HistoryItem)

/-- The library functions `JSON.stringify` (on the history list) and
`JSON.parse` (on a stored text). -/
structure Json where
  stringify : List HistoryItem → String
  parse : String → Parsed

/-- The state the functions read and write: the module variables
(`currentCategory`, `history`, `historyTimeout`), the form controls and
`localStorage`.  The value fields keep the text written to them.
`fromInput` holds `parseFloat(fromInput.value)`,
`precisionRange` holds `parseInt(precisionRange.value)`, and `historyTimeout`
holds the time at which the pending timer fires (`none`: no timer pending).
`appended` is a ghost variable with no counterpart in the source: the items
of all calls of `addToHistoryUI` so far, newest first. -/
structure App where
  currentCategory : Category
  fromInput : JSNumber
  fromUnitSelect : String
  toUnitSelect : String
  precisionRange : Int
  toInput : NumText
  formulaText : FormulaText
  history : List HistoryItem
  localStorage : String → Option String
  historyTimeout : Option Nat
  appended : List HistoryItem

/-- The call `localStorage.setItem(key, value)`. -/
def setItem (storage : String → Option String) (key value : String) : String → Option String :=
  fun k => if k = key then some value else storage k

/-- The call `localStorage.removeItem(key)`. -/
def removeItem (storage : String → Option String) (key : String) : String → Option String :=
  fun k => if k = key then none else storage k

/-- The initialiser `JSON.parse(localStorage.getItem('unitflow_history')) || []`
of `history`.  An absent key reads `null`, which `JSON.parse` turns into
`null`; a text that does not parse raises the `SyntaxError` of `JSON.parse`. -/
def loadHistory (json : Json) (storage : String → Option String) :
    Except JSError (List HistoryItem) :=
  match storage "unitflow_history" with
  | none => .ok []
  | some text =>
    match json.parse text with
    | .syntaxError => .error .syntaxError
    | .falsy => .ok []
    | .log items => .ok items

/-! ## 4. Core functions (continued) -/

/-- The function `updateFormula(from, to)`. -/
def updateFormula (ar : Arith) (s : App) (fromUnit toUnit : String) : App :=
  if s.currentCategory = .temperature then
    { s with formulaText :=
        .text ("Conversion depends on formula (" ++ fromUnit ++ " to " ++ toUnit ++ ")") }
  else
    let ratio := JSNumber.mul ar
      (JSNumber.div ar (lit ar 1) (rateOf ar s.currentCategory fromUnit))
      (rateOf ar s.currentCategory toUnit)
    { s with formulaText := .ratio (spaced fromUnit) (toFixedText ratio 4) (spaced toUnit) }

/-- The function `convertValue()`.  `undefined.toFixed` is a `TypeError`;
`saveToHistory` has an empty body. -/
def convertValue (ar : Arith) (s : App) : Except JSError App :=
  let value := s.fromInput
  let fromUnit := s.fromUnitSelect
  let toUnit := s.toUnitSelect
  let precision := s.precisionRange
  if value = .nan then
    .ok { s with toInput := .empty, formulaText := .text "Enter a value to see conversion" }
  else
    match conversionResult ar s.currentCategory value fromUnit toUnit with
    | none => .error .typeError
    | some result =>
      match toFixed result precision with
      | .error e => .error e
      | .ok formattedResult =>
        .ok (updateFormula ar { s with toInput := formattedResult } fromUnit toUnit)

/-! ## 5. History -/

/-- The item built by `addToHistoryUI`; `now` is the reading of `Date.now()`
and `toVal.toFixed(2)` raises nothing, 2 being within `0..100`. -/
def historyItem (now : Nat) (currentCategory : Category) (fromVal : JSNumber)
    (fromUnit : String) (toVal : JSNumber) (toUnit : String) : HistoryItem :=
  { id := now, fromVal := fromVal, fromUnit := fromUnit, toVal := toFixedText toVal 2,
    toUnit := toUnit, category := currentCategory }

/-- The function `addToHistoryUI(fromVal, fromUnit, toVal, toUnit)`, without
the rendering of the list. -/
def addToHistoryUI (json : Json) (now : Nat) (s : App) (fromVal : JSNumber)
    (fromUnit : String) (toVal : JSNumber) (toUnit : String) : App :=
  let item := historyItem now s.currentCategory fromVal fromUnit toVal toUnit
  let history := (item :: s.history).take 5
  { s with history := history,
           localStorage := setItem s.localStorage "unitflow_history" (json.stringify history),
           appended := item :: s.appended }

/-- The click listener of `clearHistoryBtn`, without the rendering. -/
def clearHistory (s : App) : App :=
  { s with history := [], localStorage := removeItem s.localStorage "unitflow_history" }

/-! ## 6. Event listeners and the history timer -/

/-- The callback handed to `setTimeout` by the second `input` listener; `now`
is the time at which it runs. -/
def historyCallback (ar : Arith) (json : Json) (now : Nat) (s : App) : App :=
  let val := s.fromInput
  if val = .nan then s
  else
    let result := parseFloat ar s.toInput
    addToHistoryUI json now s val s.fromUnitSelect result s.toUnitSelect

/-- An `input` event on `fromInput` at time `now`, the field then reading
`value`: the first listener runs `convertValue` (an error it raises is
reported and leaves the state as it was, every write of `convertValue` coming
after the calls that can raise), the second one cancels the pending timer and
sets a new one, due 1500 ms later. -/
def inputEvent (ar : Arith) (now : Nat) (s : App) (value : JSNumber) : App :=
  let s0 := { s with fromInput := value }
  let s1 := match convertValue ar s0 with
    | .ok s' => s'
    | .error _ => s0
  { s1 with historyTimeout := some (now + 1500) }

/-- The page and its clock (milliseconds). -/
structure World where
  app : App
  now : Nat

/-- Let `dt` milliseconds pass without any event: a pending timer that falls
due within them fires, at the time it was set for. -/
def World.wait (ar : Arith) (json : Json) (w : World) (dt : Nat) : World :=
  match w.app.historyTimeout with
  | none => { w with now := w.now + dt }
  | some due =>
    if due ≤ w.now + dt then
      { app := historyCallback ar json due { w.app with historyTimeout := none },
        now := w.now + dt }
    else { w with now := w.now + dt }

/-- The user edits the source value, which then reads `value`. -/
def World.edit (ar : Arith) (w : World) (value : JSNumber) : World :=
  { w with app := inputEvent ar w.now w.app value }

/-- A run of edits, each one `gap` milliseconds after the event before it. -/
def World.burst (ar : Arith) (json : Json) (w : World) (edits : List (Nat × JSNumber)) : World :=
  edits.foldl (fun w e => World.edit ar (World.wait ar json w e.1) e.2) w

/-- One call of `addToHistoryUI`: the reading of the clock and the arguments. -/
structure Call where
  now : Nat
  fromVal : JSNumber
  fromUnit : String
  toVal : JSNumber
  toUnit : String

/-- The item a call appends when the current category is `category`. -/
def Call.item (category : Category) (c : Call) : HistoryItem :=
  historyItem c.now category c.fromVal c.fromUnit c.toVal c.toUnit

/-- A sequence of calls of `addToHistoryUI`, first call first. -/
def appendAll (json : Json) (s : App) (calls : List Call) : App :=
  calls.foldl (fun s c => addToHistoryUI json c.now s c.fromVal c.fromUnit c.toVal c.toUnit) s

/-- A stand-in for the JSON library in closed examples: one text for every
list, and no text accepted. -/
def constJson : Json :=
  { stringify := fun _ => "[...]", parse := fun _ => .syntaxError }

/-- A page showing `1` metre in feet at the given precision, with an empty
history, an empty store and no timer pending. -/
def metresToFeet (precision : Int) : App :=
  { currentCategory := .length, fromInput := .fin 1, fromUnitSelect := "meters",
    toUnitSelect := "feet", precisionRange := precision, toInput := .empty,
    formulaText := .text "", history := [], localStorage := fun _ => none,
    historyTimeout := none, appended := [] }

/-! ## The temperature formulas as the specification words them -/

/-- The specification's first stage: the source value brought to Celsius
(identity for celsius, `(v-32)*5/9` for fahrenheit, `v-273.15` for kelvin),
the operators grouped as JavaScript groups them. -/
def toCelsius (ar : Arith) (unit : String) (v : JSNumber) : JSNumber :=
  match unit with
  | "celsius" => v
  | "fahrenheit" =>
    JSNumber.div ar (JSNumber.mul ar (JSNumber.sub ar v (lit ar 32)) (lit ar 5)) (lit ar 9)
  | "kelvin" => JSNumber.sub ar v (lit ar 273.15)
  | _ => .nan

/-- The specification's second stage: Celsius brought to the target unit
(identity for celsius, `c*9/5+32` for fahrenheit, `c+273.15` for kelvin). -/
def toTarget (ar : Arith) (unit : String) (c : JSNumber) : JSNumber :=
  match unit with
  | "celsius" => c
  | "fahrenheit" =>
    JSNumber.add ar (JSNumber.div ar (JSNumber.mul ar c (lit ar 9)) (lit ar 5)) (lit ar 32)
  | "kelvin" => JSNumber.add ar c (lit ar 273.15)
  | _ => .nan

/-- The value the source field reads after the edits `first`, then `rest`. -/
def lastValue (first : JSNumber) (rest : List (Nat × JSNumber)) : JSNumber :=
  rest.foldl (fun _ e => e.2) first

/-- The page after a burst of edits: `first` now, then `rest`. -/
def World.afterBurst (ar : Arith) (json : Json) (w : World) (first : JSNumber)
    (rest : List (Nat × JSNumber)) : World :=
  World.burst ar json (World.edit ar w first) rest

/-- The item the pending timer of `w` appends when it fires with the source
field holding a number: the fields as they read at that time. -/
def World.pendingItem (ar : Arith) (w : World) : HistoryItem :=
  historyItem (w.now + 1500) w.app.currentCategory w.app.fromInput w.app.fromUnitSelect
    (parseFloat ar w.app.toInput) w.app.toUnitSelect

/-- The `toVal` texts of the history after one edit to `value` on the page
`metresToFeet precision` and a pause of 1500 ms. -/
def savedToVals (ar : Arith) (precision : Int) (value : JSNumber) : List NumText :=
  (World.wait ar constJson (World.edit ar ⟨metresToFeet precision, 0⟩ value) 1500).app.history.map
    (fun item => item.toVal)

/-- A finite, strictly positive number. -/
def JSNumber.isPositive : JSNumber → Bool
  | .fin q => decide (0 < q)
  | _ => false

/-- A finite number between `2^-41` and `2^20`. -/
def JSNumber.isRateSized : JSNumber → Bool
  | .fin q => decide (1 / 2 ^ 41 ≤ q ∧ q ≤ 2 ^ 20)
  | _ => false

/-! ## Properties -/

/-! ### The binary64 rounding -/

theorem log2Aux_spec : ∀ fuel n : Nat, 0 < n → n ≤ fuel →
    2 ^ log2Aux fuel n ≤ n ∧ n < 2 ^ (log2Aux fuel n + 1) := by
  intro fuel
  induction fuel with
  | zero => intro n h0 h1; omega
  | succ f ih =>
    intro n h0 h1
    unfold log2Aux
    split
    · constructor <;> simp <;> omega
    · have hn : 2 ≤ n := by omega
      have h2 : 0 < n / 2 := Nat.div_pos hn (by norm_num)
      have h3 : n / 2 ≤ f := by omega
      obtain ⟨a, b⟩ := ih (n / 2) h2 h3
      constructor
      · rw [pow_succ]; omega
      · rw [pow_succ]; omega

theorem log2_spec (n : Nat) (h : 0 < n) : 2 ^ log2 n ≤ n ∧ n < 2 ^ (log2 n + 1) :=
  log2Aux_spec n n h le_rfl

theorem roundHalfEven_spec (n d : Nat) (hd : 0 < d) :
    |((roundHalfEven n d : ℕ) : ℚ) - (n : ℚ) / d| ≤ 1 / 2 := by
  have hdq : (0 : ℚ) < d := by exact_mod_cast hd
  have hdiv : (n : ℚ) = (d : ℚ) * ((n / d : ℕ) : ℚ) + ((n % d : ℕ) : ℚ) := by
    exact_mod_cast (Nat.div_add_mod n d).symm
  have hmod : n % d < d := Nat.mod_lt _ hd
  have hmodq : ((n % d : ℕ) : ℚ) < d := by exact_mod_cast hmod
  have hmod0 : (0 : ℚ) ≤ ((n % d : ℕ) : ℚ) := by positivity
  rw [abs_le]
  unfold roundHalfEven
  simp only
  have key : ∀ m : ℚ, (m - (n : ℚ) / d) = (m * d - n) / d := by
    intro m; field_simp
  split
  · rename_i h
    have hq : (2 : ℚ) * ((n % d : ℕ) : ℚ) < d := by exact_mod_cast h
    rw [key, le_div_iff₀ hdq, div_le_iff₀ hdq]
    constructor <;> nlinarith
  · split
    · rename_i h1 h
      have hq : (d : ℚ) < 2 * ((n % d : ℕ) : ℚ) := by exact_mod_cast h
      push_cast
      rw [key, le_div_iff₀ hdq, div_le_iff₀ hdq]
      constructor <;> nlinarith
    · rename_i h1 h2
      have hq : (d : ℚ) = 2 * ((n % d : ℕ) : ℚ) := by
        have : d = 2 * (n % d) := by omega
        exact_mod_cast this
      split
      · rw [key, le_div_iff₀ hdq, div_le_iff₀ hdq]
        constructor <;> nlinarith
      · push_cast
        rw [key, le_div_iff₀ hdq, div_le_iff₀ hdq]
        constructor <;> nlinarith

theorem floorLog2_spec (n d : Nat) (hn : 0 < n) (hd : 0 < d) :
    (2 : ℚ) ^ (floorLog2 n d) ≤ (n : ℚ) / d ∧ (n : ℚ) / d < (2 : ℚ) ^ (floorLog2 n d + 1) := by
  obtain ⟨ha1, ha2⟩ := log2_spec n hn
  obtain ⟨hb1, hb2⟩ := log2_spec d hd
  have hdq : (0 : ℚ) < d := by exact_mod_cast hd
  have hP : (0 : ℚ) < (2 : ℚ) ^ log2 n := by positivity
  have hQ : (0 : ℚ) < (2 : ℚ) ^ log2 d := by positivity
  have ha1q : (2 : ℚ) ^ log2 n ≤ n := by exact_mod_cast ha1
  have ha2q : (n : ℚ) < 2 * (2 : ℚ) ^ log2 n := by
    have : (n : ℚ) < (2 : ℚ) ^ (log2 n + 1) := by exact_mod_cast ha2
    rw [pow_succ] at this; linarith
  have hb1q : (2 : ℚ) ^ log2 d ≤ d := by exact_mod_cast hb1
  have hb2q : (d : ℚ) < 2 * (2 : ℚ) ^ log2 d := by
    have : (d : ℚ) < (2 : ℚ) ^ (log2 d + 1) := by exact_mod_cast hb2
    rw [pow_succ] at this; linarith
  have hk : (2 : ℚ) ^ ((log2 n : ℤ) - (log2 d : ℤ)) = (2 : ℚ) ^ log2 n / (2 : ℚ) ^ log2 d := by
    rw [zpow_sub₀ (by norm_num : (2 : ℚ) ≠ 0), zpow_natCast, zpow_natCast]
  have hcond : (floorLog2 n d = (log2 n : ℤ) - (log2 d : ℤ) - 1 ∧
        (n : ℚ) * (2 : ℚ) ^ log2 d < d * (2 : ℚ) ^ log2 n) ∨
      (floorLog2 n d = (log2 n : ℤ) - (log2 d : ℤ) ∧
        ¬ (n : ℚ) * (2 : ℚ) ^ log2 d < d * (2 : ℚ) ^ log2 n) := by
    unfold floorLog2
    simp only
    by_cases hsign : (0 : ℤ) ≤ (log2 n : ℤ) - (log2 d : ℤ)
    · have hle : log2 d ≤ log2 n := by omega
      have htn : ((log2 n : ℤ) - (log2 d : ℤ)).toNat = log2 n - log2 d := by omega
      have hpow : (2 : ℚ) ^ (log2 n - log2 d) * (2 : ℚ) ^ log2 d = (2 : ℚ) ^ log2 n := by
        rw [← pow_add]; congr 1; omega
      rw [if_pos hsign, htn]
      by_cases hc : n < d * 2 ^ (log2 n - log2 d)
      · left
        rw [if_pos hc]
        refine ⟨rfl, ?_⟩
        have hcq : (n : ℚ) < d * (2 : ℚ) ^ (log2 n - log2 d) := by exact_mod_cast hc
        calc (n : ℚ) * (2 : ℚ) ^ log2 d < d * (2 : ℚ) ^ (log2 n - log2 d) * (2 : ℚ) ^ log2 d :=
              mul_lt_mul_of_pos_right hcq hQ
          _ = d * (2 : ℚ) ^ log2 n := by rw [mul_assoc, hpow]
      · right
        rw [if_neg hc]
        refine ⟨rfl, ?_⟩
        have hcq : (d : ℚ) * (2 : ℚ) ^ (log2 n - log2 d) ≤ n := by exact_mod_cast not_lt.mp hc
        rw [not_lt]
        calc (d : ℚ) * (2 : ℚ) ^ log2 n = d * (2 : ℚ) ^ (log2 n - log2 d) * (2 : ℚ) ^ log2 d := by
              rw [mul_assoc, hpow]
          _ ≤ n * (2 : ℚ) ^ log2 d := mul_le_mul_of_nonneg_right hcq hQ.le
    · have hle : log2 n < log2 d := by omega
      have htn : (-((log2 n : ℤ) - (log2 d : ℤ))).toNat = log2 d - log2 n := by omega
      have hpow : (2 : ℚ) ^ (log2 d - log2 n) * (2 : ℚ) ^ log2 n = (2 : ℚ) ^ log2 d := by
        rw [← pow_add]; congr 1; omega
      rw [if_neg hsign, htn]
      by_cases hc : n * 2 ^ (log2 d - log2 n) < d
      · left
        rw [if_pos hc]
        refine ⟨rfl, ?_⟩
        have hcq : (n : ℚ) * (2 : ℚ) ^ (log2 d - log2 n) < d := by exact_mod_cast hc
        calc (n : ℚ) * (2 : ℚ) ^ log2 d = n * (2 : ℚ) ^ (log2 d - log2 n) * (2 : ℚ) ^ log2 n := by
              rw [mul_assoc, hpow]
          _ < d * (2 : ℚ) ^ log2 n := mul_lt_mul_of_pos_right hcq hP
      · right
        rw [if_neg hc]
        refine ⟨rfl, ?_⟩
        have hcq : (d : ℚ) ≤ n * (2 : ℚ) ^ (log2 d - log2 n) := by exact_mod_cast not_lt.mp hc
        rw [not_lt]
        calc (d : ℚ) * (2 : ℚ) ^ log2 n ≤ n * (2 : ℚ) ^ (log2 d - log2 n) * (2 : ℚ) ^ log2 n :=
              mul_le_mul_of_nonneg_right hcq hP.le
          _ = n * (2 : ℚ) ^ log2 d := by rw [mul_assoc, hpow]
  rcases hcond with ⟨he, hc⟩ | ⟨he, hc⟩
  · rw [he, sub_add_cancel, zpow_sub_one₀ (by norm_num : (2 : ℚ) ≠ 0), hk]
    constructor
    · rw [div_mul_eq_mul_div, div_le_div_iff₀ (by positivity) hdq]
      nlinarith
    · rw [div_lt_div_iff₀ hdq hQ]
      linarith
  · rw [he, zpow_add_one₀ (by norm_num : (2 : ℚ) ≠ 0), hk]
    rw [not_lt] at hc
    constructor
    · rw [div_le_div_iff₀ hQ hdq]
      linarith
    · rw [div_mul_eq_mul_div, div_lt_div_iff₀ hdq hQ]
      nlinarith

theorem roundMagnitude_spec (n d : Nat) (hn : 0 < n) (hd : 0 < d)
    (hlo : (2 : ℚ) ^ (-1022 : ℤ) ≤ (n : ℚ) / d) :
    |roundMagnitude n d - (n : ℚ) / d| ≤ (n : ℚ) / d / 2 ^ 53 := by
  obtain ⟨h1, h2⟩ := floorLog2_spec n d hn hd
  have hdq : (0 : ℚ) < d := by exact_mod_cast hd
  have h2ne : (2 : ℚ) ≠ 0 := by norm_num
  have he : (-1022 : ℤ) ≤ floorLog2 n d := by
    have hlt : (2 : ℚ) ^ (-1022 : ℤ) < (2 : ℚ) ^ (floorLog2 n d + 1) := lt_of_le_of_lt hlo h2
    have := (zpow_lt_zpow_iff_right₀ (by norm_num : (1 : ℚ) < 2)).mp hlt
    omega
  have hmax : max (floorLog2 n d) (-1022) = floorLog2 n d := max_eq_left he
  -- the quantum `T = 2 ^ (e - 52)`
  have hT : (0 : ℚ) < (2 : ℚ) ^ (floorLog2 n d - 52) := by positivity
  have hTe : (2 : ℚ) ^ (floorLog2 n d - 52) * 2 ^ 52 = (2 : ℚ) ^ (floorLog2 n d) := by
    rw [zpow_sub₀ h2ne]
    have : (2 : ℚ) ^ (52 : ℤ) = 2 ^ 52 := by norm_cast
    rw [this]
    field_simp
  have hmain : ∃ N D : ℕ, 0 < D ∧ (N : ℚ) / D = (n : ℚ) / d / (2 : ℚ) ^ (floorLog2 n d - 52) ∧
      roundMagnitude n d = (roundHalfEven N D : ℚ) * (2 : ℚ) ^ (floorLog2 n d - 52) := by
    unfold roundMagnitude
    simp only [hmax]
    by_cases hs : (0 : ℤ) ≤ floorLog2 n d - 52
    · have hz : (2 : ℚ) ^ (floorLog2 n d - 52) = (2 : ℚ) ^ (floorLog2 n d - 52).toNat := by
        rw [← zpow_natCast, Int.toNat_of_nonneg hs]
      refine ⟨n, d * 2 ^ (floorLog2 n d - 52).toNat, by positivity, ?_, ?_⟩
      · rw [hz]; push_cast; field_simp
      · rw [if_pos hs, hz]; push_cast; ring
    · have hs' : (0 : ℤ) ≤ -(floorLog2 n d - 52) := by omega
      have hz : (2 : ℚ) ^ (floorLog2 n d - 52) = ((2 : ℚ) ^ (-(floorLog2 n d - 52)).toNat)⁻¹ := by
        rw [← zpow_natCast, Int.toNat_of_nonneg hs', zpow_neg, inv_inv]
      refine ⟨n * 2 ^ (-(floorLog2 n d - 52)).toNat, d, hd, ?_, ?_⟩
      · rw [hz]; push_cast; field_simp
      · rw [if_neg hs, hz]; push_cast; field_simp
  obtain ⟨N, D, hD, hND, hr⟩ := hmain
  have hC := roundHalfEven_spec N D hD
  rw [hND] at hC
  rw [hr]
  have hrew : (roundHalfEven N D : ℚ) * (2 : ℚ) ^ (floorLog2 n d - 52) - (n : ℚ) / d
      = ((roundHalfEven N D : ℚ) - (n : ℚ) / d / (2 : ℚ) ^ (floorLog2 n d - 52))
          * (2 : ℚ) ^ (floorLog2 n d - 52) := by
    field_simp
    ring
  rw [hrew, abs_mul, abs_of_pos hT]
  have hstep : |(roundHalfEven N D : ℚ) - (n : ℚ) / d / (2 : ℚ) ^ (floorLog2 n d - 52)|
      * (2 : ℚ) ^ (floorLog2 n d - 52) ≤ 1 / 2 * (2 : ℚ) ^ (floorLog2 n d - 52) :=
    mul_le_mul_of_nonneg_right hC hT.le
  have hfin : 1 / 2 * (2 : ℚ) ^ (floorLog2 n d - 52) ≤ (n : ℚ) / d / 2 ^ 53 := by
    rw [le_div_iff₀ (by positivity)]
    calc 1 / 2 * (2 : ℚ) ^ (floorLog2 n d - 52) * 2 ^ 53
        = (2 : ℚ) ^ (floorLog2 n d - 52) * 2 ^ 52 := by ring
      _ = (2 : ℚ) ^ (floorLog2 n d) := hTe
      _ ≤ (n : ℚ) / d := h1
  exact le_trans hstep hfin

theorem roundDouble_spec (q : ℚ) (hlo : (2 : ℚ) ^ (-1022 : ℤ) ≤ |q|) (hhi : |q| ≤ 2 ^ 1023) :
    ∃ r : ℚ, roundDouble q = .fin r ∧ |r - q| ≤ |q| / 2 ^ 53 := by
  have hq0 : q ≠ 0 := by
    intro h
    rw [h, abs_zero] at hlo
    have : (0 : ℚ) < (2 : ℚ) ^ (-1022 : ℤ) := by positivity
    linarith
  have hn : 0 < q.num.natAbs := Int.natAbs_pos.mpr (Rat.num_ne_zero.mpr hq0)
  have hd : 0 < q.den := q.den_pos
  have habs : |q| = (q.num.natAbs : ℚ) / q.den := by
    rw [Rat.abs_def, Rat.divInt_eq_div]
    push_cast
    rw [Nat.cast_natAbs, Int.cast_abs]
  rw [habs] at hlo
  have hspec := roundMagnitude_spec q.num.natAbs q.den hn hd hlo
  rw [← habs] at hspec
  have hover : ¬ (2 : ℚ) ^ 1024 ≤ roundMagnitude q.num.natAbs q.den := by
    rw [not_le]
    have h1 := (abs_le.mp hspec).2
    have h3 : |q| / 2 ^ 53 ≤ 2 ^ 1023 / 2 ^ 53 := by
      apply div_le_div_of_nonneg_right hhi (by positivity)
    have h4 : (2 : ℚ) ^ 1023 + 2 ^ 1023 / 2 ^ 53 < 2 ^ 1024 := by norm_num
    linarith
  unfold roundDouble
  simp only [if_neg hq0, if_neg hover]
  by_cases hneg : q < 0
  · refine ⟨_, by rw [if_pos hneg], ?_⟩
    rw [abs_of_neg hneg] at hspec
    rw [abs_of_neg hneg]
    have : -roundMagnitude q.num.natAbs q.den - q = -(roundMagnitude q.num.natAbs q.den - -q) := by
      ring
    rw [this, abs_neg]
    exact hspec
  · refine ⟨_, by rw [if_neg hneg], ?_⟩
    rw [abs_of_nonneg (not_lt.mp hneg)] at hspec
    rw [abs_of_nonneg (not_lt.mp hneg)]
    exact hspec

theorem roundDouble_normal (q : ℚ) (hlo : 1 / 2 ^ 1022 ≤ |q|) (hhi : |q| ≤ 2 ^ 1023) :
    ∃ r : ℚ, roundDouble q = .fin r ∧ |r - q| ≤ |q| / 2 ^ 53 := by
  apply roundDouble_spec q _ hhi
  have : (2 : ℚ) ^ (-1022 : ℤ) = 1 / 2 ^ 1022 := by
    rw [zpow_neg, zpow_ofNat, one_div]
  rw [this]
  exact hlo

/-- One rounded multiplication: if `r` approximates `y` with relative error
`c`, the binary64 product of `r` and `t` approximates `y * t` with relative
error `c + (1 + c) / 2^53`. -/
theorem roundDouble_mul_step (r y c t : ℚ) (ht : 0 < t)
    (hlo : 1 / 2 ^ 1021 ≤ |y * t|) (hhi : |y * t| ≤ 2 ^ 1022)
    (hc1 : c ≤ 1 / 2) (hc : |r - y| ≤ c * |y|) :
    ∃ r' : ℚ, roundDouble (r * t) = .fin r' ∧
      |r' - y * t| ≤ (c + (1 + c) / 2 ^ 53) * |y * t| := by
  have hyt : |y * t| = |y| * t := by rw [abs_mul, abs_of_pos ht]
  have hdiff : |r * t - y * t| ≤ c * |y * t| := by
    have : r * t - y * t = (r - y) * t := by ring
    rw [this, abs_mul, abs_of_pos ht, hyt, ← mul_assoc]
    exact mul_le_mul_of_nonneg_right hc ht.le
  have hY : 0 ≤ |y * t| := abs_nonneg _
  have hup : |r * t| ≤ (1 + c) * |y * t| := by
    have h1 : |r * t| ≤ |r * t - y * t| + |y * t| := by
      have := abs_add (r * t - y * t) (y * t)
      simpa using this
    linarith
  have hdown : (1 - c) * |y * t| ≤ |r * t| := by
    have h1 : |y * t| ≤ |y * t - r * t| + |r * t| := by
      have := abs_add (y * t - r * t) (r * t)
      simpa using this
    rw [abs_sub_comm] at h1
    linarith
  have hlo' : 1 / 2 ^ 1022 ≤ |r * t| := by
    have h1 : (1 / 2 : ℚ) * |y * t| ≤ (1 - c) * |y * t| :=
      mul_le_mul_of_nonneg_right (by linarith) hY
    have h2 : (1 : ℚ) / 2 ^ 1022 = 1 / 2 * (1 / 2 ^ 1021) := by norm_num
    rw [h2]
    have h3 : (1 / 2 : ℚ) * (1 / 2 ^ 1021) ≤ 1 / 2 * |y * t| :=
      mul_le_mul_of_nonneg_left hlo (by norm_num)
    linarith
  have hhi' : |r * t| ≤ 2 ^ 1023 := by
    have h1 : (1 + c) * |y * t| ≤ 2 * |y * t| :=
      mul_le_mul_of_nonneg_right (by linarith) hY
    have h2 : (2 : ℚ) ^ 1023 = 2 * 2 ^ 1022 := by norm_num
    rw [h2]
    linarith
  obtain ⟨r', hr', herr⟩ := roundDouble_normal (r * t) hlo' hhi'
  refine ⟨r', hr', ?_⟩
  have h1 : |r' - y * t| ≤ |r' - r * t| + |r * t - y * t| := by
    have := abs_add (r' - r * t) (r * t - y * t)
    simpa using this
  have h2 : |r * t| / 2 ^ 53 ≤ (1 + c) * |y * t| / 2 ^ 53 :=
    div_le_div_of_nonneg_right hup (by positivity)
  have h3 : (c + (1 + c) / 2 ^ 53) * |y * t| = c * |y * t| + (1 + c) * |y * t| / 2 ^ 53 := by
    ring
  rw [h3]
  linarith

/-! ### The rate tables -/

set_option maxRecDepth 100000 in
theorem unitsData_all_positive (ar : Arith) (category : Category) :
    (unitsData ar category).all (fun p => p.2.isPositive) = true := by
  cases ar <;> cases category <;> decide!

theorem lookup_of_mem_keys {l : List (String × JSNumber)} {u : String}
    (h : u ∈ l.map Prod.fst) : ∃ x, l.lookup u = some x ∧ (u, x) ∈ l := by
  induction l with
  | nil => simp at h
  | cons p t ih =>
    obtain ⟨k, x⟩ := p
    by_cases hk : u = k
    · subst hk
      exact ⟨x, by simp [List.lookup], by simp⟩
    · have hmem : u ∈ t.map Prod.fst := by
        simp only [List.map_cons, List.mem_cons] at h
        rcases h with h | h
        · exact absurd h hk
        · exact h
      obtain ⟨y, hy, hy2⟩ := ih hmem
      refine ⟨y, ?_, List.mem_cons_of_mem _ hy2⟩
      have hb : (u == k) = false := by simpa using hk
      simp [List.lookup, hb, hy]

/-- Every unit of a rate table has a finite, strictly positive rate, in both
arithmetics. -/
theorem rateOf_pos {ar : Arith} {category : Category} {u : String}
    (hc : category ≠ .temperature) (hu : u ∈ unitNames ar category) :
    ∃ q : ℚ, rateOf ar category u = .fin q ∧ 0 < q := by
  simp only [unitNames, if_neg hc] at hu
  obtain ⟨x, hx, hmem⟩ := lookup_of_mem_keys hu
  have hall := unitsData_all_positive ar category
  rw [List.all_eq_true] at hall
  have hpos := hall _ hmem
  cases x with
  | fin q =>
    refine ⟨q, by simp [rateOf, hx, toNumber], ?_⟩
    simpa [JSNumber.isPositive] using hpos
  | inf b => simp [JSNumber.isPositive] at hpos
  | nan => simp [JSNumber.isPositive] at hpos

set_option maxRecDepth 100000 in
theorem unitsData_all_rateSized (category : Category) :
    (unitsData .binary64 category).all (fun p => p.2.isRateSized) = true := by
  cases category <;> decide!

/-- Every binary64 rate lies between `2^-41` and `2^20`. -/
theorem rateOf_bounds {category : Category} {u : String}
    (hc : category ≠ .temperature) (hu : u ∈ unitNames .binary64 category) :
    ∃ q : ℚ, rateOf .binary64 category u = .fin q ∧ 1 / 2 ^ 41 ≤ q ∧ q ≤ 2 ^ 20 := by
  simp only [unitNames, if_neg hc] at hu
  obtain ⟨x, hx, hmem⟩ := lookup_of_mem_keys hu
  have hall := unitsData_all_rateSized category
  rw [List.all_eq_true] at hall
  have hb := hall _ hmem
  cases x with
  | fin q =>
    refine ⟨q, by simp [rateOf, hx, toNumber], ?_⟩
    simpa [JSNumber.isRateSized] using hb
  | inf b => simp [JSNumber.isRateSized] at hb
  | nan => simp [JSNumber.isRateSized] at hb

theorem abs_mul_bounds {y t L U l h : ℚ} (hL : L ≤ |y|) (hU : |y| ≤ U) (hl : l ≤ t)
    (hh : t ≤ h) (hl0 : 0 < l) : L * l ≤ |y * t| ∧ |y * t| ≤ U * h := by
  have ht : 0 < t := lt_of_lt_of_le hl0 hl
  rw [abs_mul, abs_of_pos ht]
  constructor
  · exact mul_le_mul hL hl hl0.le (abs_nonneg y)
  · exact mul_le_mul hU hh ht.le (le_trans (abs_nonneg y) hU)

theorem inv_rate_bounds {a : ℚ} (hlo : 1 / 2 ^ 41 ≤ a) (hhi : a ≤ 2 ^ 20) :
    1 / 2 ^ 20 ≤ a⁻¹ ∧ a⁻¹ ≤ 2 ^ 41 := by
  have ha : 0 < a := lt_of_lt_of_le (by positivity) hlo
  constructor
  · rw [one_div, inv_le_inv₀ (by positivity) ha]
    exact hhi
  · rw [inv_le_comm₀ ha (by positivity), ← one_div]
    exact hlo

/-- In binary64, dividing a value of magnitude between `2^-800` and `2^800` by
a rate and multiplying by it again gives the value back within a relative
error of `2^-51`. -/
theorem binary64_div_mul (x a : ℚ) (halo : 1 / 2 ^ 41 ≤ a) (hahi : a ≤ 2 ^ 20)
    (hxlo : 1 / 2 ^ 800 ≤ |x|) (hxhi : |x| ≤ 2 ^ 800) :
    ∃ y : ℚ, JSNumber.mul .binary64 (JSNumber.div .binary64 (.fin x) (.fin a)) (.fin a) = .fin y ∧
      |y - x| ≤ |x| / 2 ^ 51 := by
  have ha : 0 < a := lt_of_lt_of_le (by positivity) halo
  have hane : a ≠ 0 := ne_of_gt ha
  obtain ⟨hilo, hihi⟩ := inv_rate_bounds halo hahi
  obtain ⟨b1, b2⟩ := abs_mul_bounds hxlo hxhi hilo hihi (by positivity)
  obtain ⟨r1, hr1, he1⟩ := roundDouble_mul_step x x 0 a⁻¹ (inv_pos.mpr ha)
    (le_trans (by norm_num) b1) (le_trans b2 (by norm_num)) (by norm_num) (by simp)
  have hy2 : x * a⁻¹ * a = x := by field_simp
  obtain ⟨r2, hr2, he2⟩ := roundDouble_mul_step r1 (x * a⁻¹) _ a ha
    (by rw [hy2]; exact le_trans (by norm_num) hxlo)
    (by rw [hy2]; exact le_trans hxhi (by norm_num)) (by norm_num) he1
  refine ⟨r2, ?_, ?_⟩
  · simp only [JSNumber.div, JSNumber.mul, rnd, if_neg hane, div_eq_mul_inv, hr1, hr2]
  · rw [hy2] at he2
    have hc : (0 + (1 + 0) / 2 ^ 53 + (1 + (0 + (1 + 0) / 2 ^ 53)) / 2 ^ 53 : ℚ) ≤ 1 / 2 ^ 51 := by
      norm_num
    calc |r2 - x| ≤ _ := he2
      _ ≤ 1 / 2 ^ 51 * |x| := mul_le_mul_of_nonneg_right hc (abs_nonneg x)
      _ = |x| / 2 ^ 51 := by ring

/-- In binary64, converting a value of magnitude between `2^-800` and `2^800`
through two rates and back gives the value back within a relative error of
`2^-50`. -/
theorem binary64_round_trip (x a b : ℚ) (halo : 1 / 2 ^ 41 ≤ a) (hahi : a ≤ 2 ^ 20)
    (hblo : 1 / 2 ^ 41 ≤ b) (hbhi : b ≤ 2 ^ 20)
    (hxlo : 1 / 2 ^ 800 ≤ |x|) (hxhi : |x| ≤ 2 ^ 800) :
    ∃ y : ℚ,
      JSNumber.mul .binary64
        (JSNumber.div .binary64
          (JSNumber.mul .binary64 (JSNumber.div .binary64 (.fin x) (.fin a)) (.fin b)) (.fin b))
        (.fin a) = .fin y ∧
      |y - x| ≤ |x| / 2 ^ 50 := by
  have ha : 0 < a := lt_of_lt_of_le (by positivity) halo
  have hb : 0 < b := lt_of_lt_of_le (by positivity) hblo
  have hane : a ≠ 0 := ne_of_gt ha
  have hbne : b ≠ 0 := ne_of_gt hb
  obtain ⟨hilo, hihi⟩ := inv_rate_bounds halo hahi
  obtain ⟨b1, b2⟩ := abs_mul_bounds hxlo hxhi hilo hihi (by positivity)
  obtain ⟨c1, c2⟩ := abs_mul_bounds b1 b2 hblo hbhi (by positivity)
  obtain ⟨r1, hr1, he1⟩ := roundDouble_mul_step x x 0 a⁻¹ (inv_pos.mpr ha)
    (le_trans (by norm_num) b1) (le_trans b2 (by norm_num)) (by norm_num) (by simp)
  obtain ⟨r2, hr2, he2⟩ := roundDouble_mul_step r1 (x * a⁻¹) _ b hb
    (le_trans (by norm_num) c1) (le_trans c2 (by norm_num)) (by norm_num) he1
  have hy3 : x * a⁻¹ * b * b⁻¹ = x * a⁻¹ := by field_simp; ring
  obtain ⟨r3, hr3, he3⟩ := roundDouble_mul_step r2 (x * a⁻¹ * b) _ b⁻¹ (inv_pos.mpr hb)
    (by rw [hy3]; exact le_trans (by norm_num) b1)
    (by rw [hy3]; exact le_trans b2 (by norm_num)) (by norm_num) he2
  have hy4 : x * a⁻¹ * b * b⁻¹ * a = x := by field_simp; ring
  obtain ⟨r4, hr4, he4⟩ := roundDouble_mul_step r3 (x * a⁻¹ * b * b⁻¹) _ a ha
    (by rw [hy4]; exact le_trans (by norm_num) hxlo)
    (by rw [hy4]; exact le_trans hxhi (by norm_num)) (by norm_num) he3
  refine ⟨r4, ?_, ?_⟩
  · simp only [JSNumber.div, JSNumber.mul, rnd, if_neg hane, if_neg hbne, div_eq_mul_inv,
      hr1, hr2, hr3, hr4]
  · rw [hy4] at he4
    refine le_trans he4 ?_
    have hc : (0 + (1 + 0) / 2 ^ 53 + (1 + (0 + (1 + 0) / 2 ^ 53)) / 2 ^ 53 +
          (1 + (0 + (1 + 0) / 2 ^ 53 + (1 + (0 + (1 + 0) / 2 ^ 53)) / 2 ^ 53)) / 2 ^ 53 +
        (1 + (0 + (1 + 0) / 2 ^ 53 + (1 + (0 + (1 + 0) / 2 ^ 53)) / 2 ^ 53 +
          (1 + (0 + (1 + 0) / 2 ^ 53 + (1 + (0 + (1 + 0) / 2 ^ 53)) / 2 ^ 53)) / 2 ^ 53)) /
          2 ^ 53 : ℚ) ≤ 1 / 2 ^ 50 := by
      norm_num
    calc _ ≤ 1 / 2 ^ 50 * |x| := mul_le_mul_of_nonneg_right hc (abs_nonneg x)
      _ = |x| / 2 ^ 50 := by ring

/-- In exact arithmetic, dividing by a positive rate and multiplying by it
again gives the value back, for every number. -/
theorem exact_div_mul_cancel (v : JSNumber) {a : ℚ} (ha : 0 < a) :
    JSNumber.mul .exact (JSNumber.div .exact v (.fin a)) (.fin a) = v := by
  have hne : a ≠ 0 := ne_of_gt ha
  have hlt : ¬ a < 0 := not_lt.mpr ha.le
  cases v with
  | fin x =>
    simp only [JSNumber.div, JSNumber.mul, rnd, if_neg hne]
    congr 1
    field_simp
  | inf b => simp [JSNumber.div, JSNumber.mul, hne, hlt]
  | nan => simp [JSNumber.div, JSNumber.mul]

theorem unitNames_arith (ar : Arith) (category : Category) :
    unitNames ar category = unitNames .binary64 category := by
  cases ar <;> cases category <;> rfl

/-- C1 (amended): converting from a unit to itself returns the value exactly
for temperature (the early return of `convertTemperature`, in both
arithmetics) and, for the rate tables, in exact arithmetic, where
`(v / rate[A]) * rate[A] = v`; in binary64 the rate tables return a finite
value of magnitude between `2^-800` and `2^800` within a relative error of
`2^-51`. -/
theorem identity_law (ar : Arith) (category : Category) (A : String) (v : JSNumber) (x : ℚ)
    (hA : A ∈ unitNames ar category) :
    ((ar = .exact ∨ category = .temperature) → conversionResult ar category v A A = some v) ∧
    (1 / 2 ^ 800 ≤ |x| → |x| ≤ 2 ^ 800 →
      ∃ y : ℚ, conversionResult ar category (.fin x) A A = some (.fin y) ∧
        |y - x| ≤ |x| / 2 ^ 51) := by
  have hexact : (ar = .exact ∨ category = .temperature) →
      ∀ w : JSNumber, conversionResult ar category w A A = some w := by
    intro h w
    by_cases hc : category = .temperature
    · simp [conversionResult, hc, convertTemperature]
    · have har : ar = .exact := h.resolve_right hc
      subst har
      obtain ⟨a, ha, hpos⟩ := rateOf_pos hc hA
      simp only [conversionResult, if_neg hc, ha]
      rw [exact_div_mul_cancel w hpos]
  refine ⟨fun h => hexact h v, ?_⟩
  intro hlo hhi
  by_cases h : ar = .exact ∨ category = .temperature
  · refine ⟨x, hexact h (.fin x), ?_⟩
    rw [sub_self, abs_zero]
    exact div_nonneg (abs_nonneg x) (pow_nonneg (by norm_num) 51)
  · have har : ar = .binary64 := by
      cases ar
      · exact absurd (Or.inl rfl) h
      · rfl
    have hc : category ≠ .temperature := fun hc => h (Or.inr hc)
    subst har
    obtain ⟨a, ha, halo, hahi⟩ := rateOf_bounds hc hA
    obtain ⟨y, hy, herr⟩ := binary64_div_mul x a halo hahi hlo hhi
    exact ⟨y, by simp only [conversionResult, if_neg hc, ha, hy], herr⟩

set_option maxRecDepth 100000 in
theorem identity_law_witness :
    conversionResult .binary64 .temperature (.fin 300) "kelvin" "kelvin" = some (.fin 300) ∧
    ∃ y : ℚ, conversionResult .binary64 .length (.fin 7) "centimeters" "centimeters"
        = some (.fin y) ∧ |y - 7| ≤ |(7 : ℚ)| / 2 ^ 51 :=
  ⟨(identity_law .binary64 .temperature "kelvin" (.fin 300) 300 (by decide)).1 (Or.inr rfl),
   (identity_law .binary64 .length "centimeters" (.fin 7) 7 (by decide!)).2
     (by rw [abs_of_pos (by norm_num)]; norm_num)
     (by rw [abs_of_pos (by norm_num)]; norm_num)⟩

/-- C1 as stated fails in binary64: 7 centimetres converted to centimetres give
`(7 / 100) * 100 = 7.000000000000001`, one unit in the last place above 7. -/
theorem identity_law_fails_binary64 :
    "centimeters" ∈ unitNames .binary64 .length ∧
    conversionResult .binary64 .length (.fin 7) "centimeters" "centimeters"
      = some (.fin (7 + 1 / 2 ^ 50)) ∧
    conversionResult .binary64 .length (.fin 7) "centimeters" "centimeters"
      ≠ some (.fin 7) := by
  decide!

/-- In exact arithmetic, a conversion through two positive rates and back
gives the value back, for every number. -/
theorem exact_round_trip (v : JSNumber) {a b : ℚ} (ha : 0 < a) (hb : 0 < b) :
    JSNumber.mul .exact
      (JSNumber.div .exact (JSNumber.mul .exact (JSNumber.div .exact v (.fin a)) (.fin b))
        (.fin b))
      (.fin a) = v := by
  have hane : a ≠ 0 := ne_of_gt ha
  have hbne : b ≠ 0 := ne_of_gt hb
  have halt : ¬ a < 0 := not_lt.mpr ha.le
  have hblt : ¬ b < 0 := not_lt.mpr hb.le
  cases v with
  | fin x =>
    simp only [JSNumber.div, JSNumber.mul, rnd, if_neg hane, if_neg hbne]
    congr 1
    field_simp
    ring
  | inf c => simp [JSNumber.div, JSNumber.mul, hane, hbne, halt, hblt]
  | nan => simp [JSNumber.div, JSNumber.mul]

/-- C2: in every rate table all rates are non-zero; over the rationals
converting a value from unit `A` to unit `B` and the result back from `B` to
`A` gives the value back exactly; in binary64 a finite value of magnitude
between `2^-800` and `2^800` comes back within a relative error of `2^-50`. -/
theorem round_trip_law (category : Category) (A B : String) (v : JSNumber) (x : ℚ)
    (hc : category ≠ .temperature) (hA : A ∈ unitNames .exact category)
    (hB : B ∈ unitNames .exact category) :
    (∃ a b : ℚ, rateOf .exact category A = .fin a ∧ a ≠ 0 ∧
      rateOf .exact category B = .fin b ∧ b ≠ 0) ∧
    (∃ a b : ℚ, rateOf .binary64 category A = .fin a ∧ a ≠ 0 ∧
      rateOf .binary64 category B = .fin b ∧ b ≠ 0) ∧
    (conversionResult .exact category v A B).bind
      (fun y => conversionResult .exact category y B A) = some v ∧
    (1 / 2 ^ 800 ≤ |x| → |x| ≤ 2 ^ 800 →
      ∃ y : ℚ, (conversionResult .binary64 category (.fin x) A B).bind
          (fun z => conversionResult .binary64 category z B A) = some (.fin y) ∧
        |y - x| ≤ |x| / 2 ^ 50) := by
  obtain ⟨a, ha, hapos⟩ := rateOf_pos hc hA
  obtain ⟨b, hb, hbpos⟩ := rateOf_pos hc hB
  rw [unitNames_arith] at hA hB
  obtain ⟨a', ha', halo, hahi⟩ := rateOf_bounds hc hA
  obtain ⟨b', hb', hblo, hbhi⟩ := rateOf_bounds hc hB
  have ha'pos : 0 < a' := lt_of_lt_of_le (by positivity) halo
  have hb'pos : 0 < b' := lt_of_lt_of_le (by positivity) hblo
  refine ⟨⟨a, b, ha, ne_of_gt hapos, hb, ne_of_gt hbpos⟩,
    ⟨a', b', ha', ne_of_gt ha'pos, hb', ne_of_gt hb'pos⟩, ?_, ?_⟩
  · simp only [conversionResult, if_neg hc, ha, hb, Option.some_bind]
    rw [exact_round_trip v hapos hbpos]
  · intro hlo hhi
    obtain ⟨y, hy, herr⟩ := binary64_round_trip x a' b' halo hahi hblo hbhi hlo hhi
    exact ⟨y, by simp only [conversionResult, if_neg hc, ha', hb', Option.some_bind, hy], herr⟩

set_option maxRecDepth 100000 in
theorem round_trip_law_witness :
    (conversionResult .exact .length (.fin 26.2) "miles" "inches").bind
      (fun y => conversionResult .exact .length y "inches" "miles") = some (.fin 26.2) ∧
    ∃ y : ℚ, (conversionResult .binary64 .length (.fin 26.2) "miles" "inches").bind
        (fun z => conversionResult .binary64 .length z "inches" "miles") = some (.fin y) ∧
      |y - 26.2| ≤ |(26.2 : ℚ)| / 2 ^ 50 :=
  ⟨(round_trip_law .length "miles" "inches" (.fin 26.2) 26.2 (by decide) (by decide!)
      (by decide!)).2.2.1,
   (round_trip_law .length "miles" "inches" (.fin 26.2) 26.2 (by decide) (by decide!)
      (by decide!)).2.2.2
     (by rw [abs_of_pos (by norm_num)]; norm_num)
     (by rw [abs_of_pos (by norm_num)]; norm_num)⟩

/-- C3: for distinct temperature units `convertTemperature` is the composition
of the two stages of the specification, in both arithmetics; 0 °C is 32 °F,
100 °C is 212 °F and 0 °C is 273.15 K. -/
theorem temperature_two_stage (ar : Arith) (v : JSNumber) (fromUnit toUnit : String) :
    (fromUnit ∈ temperatureUnits → toUnit ∈ temperatureUnits → fromUnit ≠ toUnit →
      convertTemperature ar v fromUnit toUnit
        = some (toTarget ar toUnit (toCelsius ar fromUnit v))) ∧
    conversionResult ar .temperature (lit ar 0) "celsius" "fahrenheit" = some (lit ar 32) ∧
    conversionResult ar .temperature (lit ar 100) "celsius" "fahrenheit" = some (lit ar 212) ∧
    conversionResult ar .temperature (lit ar 0) "celsius" "kelvin" = some (lit ar 273.15) := by
  refine ⟨?_, ?_, ?_, ?_⟩
  · intro hf ht hne
    simp only [temperatureUnits, List.mem_cons, List.mem_singleton, List.not_mem_nil,
      or_false] at hf ht
    rcases hf with rfl | rfl | rfl <;> rcases ht with rfl | rfl | rfl <;>
      first
        | exact absurd rfl hne
        | simp [convertTemperature, toTarget, toCelsius, toNumber]
  · cases ar <;> decide!
  · cases ar <;> decide!
  · cases ar <;> decide!

theorem temperature_two_stage_witness :
    convertTemperature .binary64 (lit .binary64 98.6) "fahrenheit" "kelvin"
      = some (toTarget .binary64 "kelvin"
          (toCelsius .binary64 "fahrenheit" (lit .binary64 98.6))) :=
  (temperature_two_stage .binary64 (lit .binary64 98.6) "fahrenheit" "kelvin").1
    (by decide) (by decide) (by decide)

theorem unitsData_has_base (ar : Arith) (category : Category)
    (hc : category ≠ .temperature) :
    ∃ base, (base, JSNumber.fin 1) ∈ unitsData ar category := by
  have h : (unitsData ar category).any (fun p => decide (p.2 = JSNumber.fin 1)) = true := by
    cases ar <;> cases category <;> first | exact absurd rfl hc | decide!
  rw [List.any_eq_true] at h
  obtain ⟨⟨u, x⟩, hmem, hx⟩ := h
  have hx1 : x = JSNumber.fin 1 := by simpa using hx
  exact ⟨u, hx1 ▸ hmem⟩

/-- C4: in both arithmetics the result for units `A`, `B` of a rate table is
`(v / rate[A]) * rate[B]`, with `rate[A]` and `rate[B]` finite and positive;
every table has a unit of rate 1 and only positive rates; 1 metre is 100
centimetres and 1 kilometre is 1000 metres. -/
theorem linear_conversion (ar : Arith) (category : Category) (A B : String) (v : JSNumber) :
    (category ≠ .temperature → A ∈ unitNames ar category → B ∈ unitNames ar category →
      ∃ a b : ℚ, rateOf ar category A = .fin a ∧ 0 < a ∧ rateOf ar category B = .fin b ∧ 0 < b ∧
        conversionResult ar category v A B
          = some (JSNumber.mul ar (JSNumber.div ar v (.fin a)) (.fin b))) ∧
    (category ≠ .temperature → ∃ base, (base, JSNumber.fin 1) ∈ unitsData ar category) ∧
    (∀ p ∈ unitsData ar category, ∃ q : ℚ, p.2 = .fin q ∧ 0 < q) ∧
    conversionResult ar .length (lit ar 1) "meters" "centimeters" = some (lit ar 100) ∧
    conversionResult ar .length (lit ar 1) "kilometers" "meters" = some (lit ar 1000) := by
  refine ⟨?_, unitsData_has_base ar category, ?_, ?_, ?_⟩
  · intro hc hA hB
    obtain ⟨a, ha, hapos⟩ := rateOf_pos hc hA
    obtain ⟨b, hb, hbpos⟩ := rateOf_pos hc hB
    exact ⟨a, b, ha, hapos, hb, hbpos, by simp only [conversionResult, if_neg hc, ha, hb]⟩
  · intro p hp
    have hall := unitsData_all_positive ar category
    rw [List.all_eq_true] at hall
    have hpos := hall p hp
    cases hx : p.2 with
    | fin q => exact ⟨q, rfl, by simpa [hx, JSNumber.isPositive] using hpos⟩
    | inf c => simp [hx, JSNumber.isPositive] at hpos
    | nan => simp [hx, JSNumber.isPositive] at hpos
  · cases ar <;> decide!
  · cases ar <;> decide!

theorem linear_conversion_witness :
    ∃ a b : ℚ, rateOf .binary64 .length "kilometers" = .fin a ∧ 0 < a ∧
      rateOf .binary64 .length "miles" = .fin b ∧ 0 < b ∧
      conversionResult .binary64 .length (.fin 5) "kilometers" "miles"
        = some (JSNumber.mul .binary64 (JSNumber.div .binary64 (.fin 5) (.fin a)) (.fin b)) :=
  (linear_conversion .binary64 .length "kilometers" "miles" (.fin 5)).1 (by decide) (by decide!)
    (by decide!)

/-- C5 (amended): when `parseFloat` of the source text is NaN, `convertValue`
raises nothing, empties the result field, shows the prompt and changes nothing
else, whatever the category, the units and the precision. -/
theorem invalid_input_no_result (ar : Arith) (s : App) (h : s.fromInput = .nan) :
    convertValue ar s
      = .ok { s with toInput := .empty,
                     formulaText := .text "Enter a value to see conversion" } := by
  simp [convertValue, h]

theorem invalid_input_no_result_witness :
    convertValue .binary64 { metresToFeet 2 with fromInput := .nan }
      = .ok { { metresToFeet 2 with fromInput := .nan } with
                toInput := .empty,
                formulaText := .text "Enter a value to see conversion" } :=
  invalid_input_no_result .binary64 { metresToFeet 2 with fromInput := .nan } rfl

/-- C5 as stated fails for a non-finite source value: `Infinity` passes the
`isNaN` guard and is converted, the result field reading `Infinity` and the
formula line the ratio of the units. -/
theorem infinite_input_is_converted :
    (convertValue .binary64 { metresToFeet 2 with fromInput := .inf false }).toOption.map
        (fun s => (s.toInput, s.formulaText))
      = some (NumText.num (.inf false), FormulaText.ratio "meters" (.fixed false 32808 4) "feet") ∧
    (convertValue .binary64 { metresToFeet 2 with fromInput := .inf false }).toOption.map
        (fun s => (s.toInput, s.formulaText))
      ≠ some (NumText.empty, FormulaText.text "Enter a value to see conversion") := by
  decide!

theorem take_append_take {α : Type} (n : Nat) (l m : List α) :
    (l ++ m.take n).take n = (l ++ m).take n := by
  rw [List.take_append_eq_append_take, List.take_append_eq_append_take, List.take_take]
  congr 2
  omega

theorem appendAll_history (json : Json) (calls : List Call) :
    ∀ s : App, s.history.length ≤ 5 →
      (appendAll json s calls).history
        = (calls.reverse.map (Call.item s.currentCategory) ++ s.history).take 5
      ∧ (appendAll json s calls).history.length ≤ 5 := by
  induction calls with
  | nil =>
    intro s h
    refine ⟨?_, h⟩
    simp only [appendAll, List.foldl_nil, List.reverse_nil, List.map_nil, List.nil_append]
    rw [List.take_of_length_le h]
  | cons c cs ih =>
    intro s _
    have hlen : (addToHistoryUI json c.now s c.fromVal c.fromUnit c.toVal c.toUnit).history.length
        ≤ 5 := by
      simp only [addToHistoryUI, List.length_take]
      omega
    obtain ⟨h1, h2⟩ := ih _ hlen
    simp only [appendAll, List.foldl_cons] at h1 h2 ⊢
    refine ⟨?_, h2⟩
    rw [h1]
    simp only [addToHistoryUI, Call.item, List.reverse_cons, List.map_append, List.map_cons,
      List.map_nil, List.append_assoc, List.singleton_append]
    exact take_append_take 5 _ _

theorem appendAll_storage (json : Json) (c : Call) (calls : List Call) :
    ∀ s : App, (appendAll json s (calls ++ [c])).localStorage "unitflow_history"
      = some (json.stringify (appendAll json s (calls ++ [c])).history) := by
  intro s
  simp [appendAll, List.foldl_append, addToHistoryUI, setItem]

/-- C6: `addToHistoryUI` puts the new item at the front and keeps the first 5
items, whatever the log; from a log of at most 5 items every sequence of calls
leaves the first 5 of the new items, newest first, followed by the old ones
(at most 5 items, nothing being deduplicated); 6 calls on an empty log leave
the items of the last 5 calls, newest first; and the list kept is the one
serialised under the history key of the store. -/
theorem history_append (json : Json) (s : App) (c : Call) (calls : List Call)
    (c1 c2 c3 c4 c5 c6 : Call) :
    (addToHistoryUI json c.now s c.fromVal c.fromUnit c.toVal c.toUnit).history
      = (c.item s.currentCategory :: s.history).take 5 ∧
    (addToHistoryUI json c.now s c.fromVal c.fromUnit c.toVal c.toUnit).history.length ≤ 5 ∧
    (addToHistoryUI json c.now s c.fromVal c.fromUnit c.toVal c.toUnit).localStorage
        "unitflow_history"
      = some (json.stringify ((c.item s.currentCategory :: s.history).take 5)) ∧
    (s.history.length ≤ 5 →
      (appendAll json s calls).history
        = (calls.reverse.map (Call.item s.currentCategory) ++ s.history).take 5 ∧
      (appendAll json s calls).history.length ≤ 5) ∧
    (appendAll json s (calls ++ [c])).localStorage "unitflow_history"
      = some (json.stringify (appendAll json s (calls ++ [c])).history) ∧
    (appendAll json { s with history := [] } [c1, c2, c3, c4, c5, c6]).history
      = [c6.item s.currentCategory, c5.item s.currentCategory, c4.item s.currentCategory,
         c3.item s.currentCategory, c2.item s.currentCategory] ∧
    (appendAll json { s with history := [] } [c1, c2, c3, c4, c5, c6]).localStorage
        "unitflow_history"
      = some (json.stringify
          [c6.item s.currentCategory, c5.item s.currentCategory, c4.item s.currentCategory,
           c3.item s.currentCategory, c2.item s.currentCategory]) := by
  refine ⟨rfl, ?_, ?_, fun h => appendAll_history json calls s h,
    appendAll_storage json c calls s, rfl, ?_⟩
  · simp only [addToHistoryUI, List.length_take]
    omega
  · simp [addToHistoryUI, setItem, Call.item]
  · simp [appendAll, addToHistoryUI, setItem, Call.item]

theorem history_append_witness :
    (metresToFeet 2).history.length ≤ 5 ∧
    (appendAll constJson (metresToFeet 2)
        [⟨1, .fin 1, "meters", .fin 3.28084, "feet"⟩,
         ⟨2, .fin 2, "meters", .fin 6.56168, "feet"⟩]).history
      = (([⟨1, .fin 1, "meters", .fin 3.28084, "feet"⟩,
           ⟨2, .fin 2, "meters", .fin 6.56168, "feet"⟩] : List Call).reverse.map
            (Call.item (metresToFeet 2).currentCategory) ++ (metresToFeet 2).history).take 5 :=
  ⟨by decide,
   ((history_append constJson (metresToFeet 2) ⟨0, .fin 0, "meters", .fin 0, "feet"⟩
      [⟨1, .fin 1, "meters", .fin 3.28084, "feet"⟩, ⟨2, .fin 2, "meters", .fin 6.56168, "feet"⟩]
      ⟨1, .fin 1, "meters", .fin 3.28084, "feet"⟩ ⟨2, .fin 2, "meters", .fin 6.56168, "feet"⟩
      ⟨3, .fin 3, "meters", .fin 9.84252, "feet"⟩ ⟨4, .fin 4, "meters", .fin 13.12336, "feet"⟩
      ⟨5, .fin 5, "meters", .fin 16.4042, "feet"⟩
      ⟨6, .fin 6, "meters", .fin 19.68504, "feet"⟩).2.2.2.1 (by decide)).1⟩

/-- C7 fails on a malformed text: a stored history text that `JSON.parse`
rejects makes the initialiser of `history` raise a `SyntaxError`. -/
theorem loadHistory_malformed_raises (json : Json) (storage : String → Option String)
    (text : String) (hstored : storage "unitflow_history" = some text)
    (hbad : json.parse text = .syntaxError) :
    loadHistory json storage = .error .syntaxError := by
  simp [loadHistory, hstored, hbad]

theorem loadHistory_malformed_raises_witness :
    loadHistory constJson (setItem (fun _ => none) "unitflow_history" "[1,")
      = .error .syntaxError :=
  loadHistory_malformed_raises constJson (setItem (fun _ => none) "unitflow_history" "[1,") "[1,"
    (by decide) rfl

theorem convertValue_frame {ar : Arith} {s s' : App} (h : convertValue ar s = .ok s') :
    s'.fromInput = s.fromInput ∧ s'.history = s.history ∧ s'.appended = s.appended ∧
    s'.currentCategory = s.currentCategory ∧ s'.fromUnitSelect = s.fromUnitSelect ∧
    s'.toUnitSelect = s.toUnitSelect := by
  unfold convertValue at h
  simp only at h
  split at h
  · cases h
    exact ⟨rfl, rfl, rfl, rfl, rfl, rfl⟩
  · split at h
    · cases h
    · split at h
      · cases h
      · cases h
        unfold updateFormula
        split <;> exact ⟨rfl, rfl, rfl, rfl, rfl, rfl⟩

theorem inputEvent_frame (ar : Arith) (now : Nat) (s : App) (v : JSNumber) :
    (inputEvent ar now s v).fromInput = v ∧
    (inputEvent ar now s v).historyTimeout = some (now + 1500) ∧
    (inputEvent ar now s v).history = s.history ∧
    (inputEvent ar now s v).appended = s.appended ∧
    (inputEvent ar now s v).currentCategory = s.currentCategory ∧
    (inputEvent ar now s v).fromUnitSelect = s.fromUnitSelect ∧
    (inputEvent ar now s v).toUnitSelect = s.toUnitSelect := by
  unfold inputEvent
  simp only
  cases hcv : convertValue ar { s with fromInput := v } with
  | error e => simp
  | ok s' =>
    obtain ⟨h1, h2, h3, h4, h5, h6⟩ := convertValue_frame hcv
    simp [h1, h2, h3, h4, h5, h6]

theorem convertValue_toInput (ar : Arith) (s : App) (result : JSNumber)
    (hv : s.fromInput ≠ .nan) (hp0 : 0 ≤ s.precisionRange) (hp1 : s.precisionRange ≤ 100)
    (hres : conversionResult ar s.currentCategory s.fromInput s.fromUnitSelect s.toUnitSelect
      = some result) :
    ∃ s', convertValue ar s = .ok s' ∧
      s'.toInput = toFixedText result s.precisionRange.toNat := by
  have hrange : ¬ (s.precisionRange < 0 ∨ 100 < s.precisionRange) := by omega
  refine ⟨updateFormula ar { s with toInput := toFixedText result s.precisionRange.toNat }
    s.fromUnitSelect s.toUnitSelect, ?_, ?_⟩
  · simp only [convertValue, if_neg hv, hres, toFixed, if_neg hrange]
  · unfold updateFormula
    split <;> rfl

theorem wait_before_due (ar : Arith) (json : Json) (w : World) (dt due : Nat)
    (hdue : w.app.historyTimeout = some due) (hlt : w.now + dt < due) :
    World.wait ar json w dt = { w with now := w.now + dt } := by
  simp [World.wait, hdue, Nat.not_le.mpr hlt]

/-- During a burst whose gaps are all below 1500 ms the timer set by the last
edit stays pending and nothing is appended. -/
theorem burst_frame (ar : Arith) (json : Json) (rest : List (Nat × JSNumber)) :
    ∀ w : World, w.app.historyTimeout = some (w.now + 1500) → (∀ e ∈ rest, e.1 < 1500) →
      (World.burst ar json w rest).app.historyTimeout
        = some ((World.burst ar json w rest).now + 1500) ∧
      (World.burst ar json w rest).app.history = w.app.history ∧
      (World.burst ar json w rest).app.appended = w.app.appended ∧
      (World.burst ar json w rest).app.fromInput = lastValue w.app.fromInput rest ∧
      (World.burst ar json w rest).app.currentCategory = w.app.currentCategory ∧
      (World.burst ar json w rest).app.fromUnitSelect = w.app.fromUnitSelect ∧
      (World.burst ar json w rest).app.toUnitSelect = w.app.toUnitSelect := by
  induction rest with
  | nil =>
    intro w hw _
    exact ⟨hw, rfl, rfl, rfl, rfl, rfl, rfl⟩
  | cons e es ih =>
    intro w hw hgaps
    have he : e.1 < 1500 := hgaps e (List.mem_cons_self _ _)
    have hes : ∀ x ∈ es, x.1 < 1500 := fun x hx => hgaps x (List.mem_cons_of_mem _ hx)
    have hwait : World.wait ar json w e.1 = { w with now := w.now + e.1 } :=
      wait_before_due ar json w e.1 (w.now + 1500) hw (by omega)
    obtain ⟨f1, f2, f3, f4, f5, f6, f7⟩ := inputEvent_frame ar (w.now + e.1) w.app e.2
    have hstep : World.burst ar json w (e :: es)
        = World.burst ar json (World.edit ar { w with now := w.now + e.1 } e.2) es := by
      simp [World.burst, hwait]
    rw [hstep]
    obtain ⟨g1, g2, g3, g4, g5, g6, g7⟩ :=
      ih (World.edit ar { w with now := w.now + e.1 } e.2) (by simpa [World.edit] using f2) hes
    refine ⟨g1, ?_, ?_, ?_, ?_, ?_, ?_⟩
    · rw [g2]; simpa [World.edit] using f3
    · rw [g3]; simpa [World.edit] using f4
    · rw [g4]
      have : (World.edit ar { w with now := w.now + e.1 } e.2).app.fromInput = e.2 := by
        simpa [World.edit] using f1
      rw [this]
      simp [lastValue]
    · rw [g5]; simpa [World.edit] using f5
    · rw [g6]; simpa [World.edit] using f6
    · rw [g7]; simpa [World.edit] using f7

/-- C9: in a burst of edits, each less than 1500 ms after the one before,
every edit replaces the pending timer by a new one and nothing is appended;
in the pause of at least 1500 ms that follows, the timer fires once: it
appends nothing when the last value is NaN, and otherwise one item, holding
the last value, which goes to the front of the history. -/
theorem debounced_capture (ar : Arith) (json : Json) (w : World) (first : JSNumber)
    (rest : List (Nat × JSNumber)) (pause : Nat)
    (hgaps : ∀ e ∈ rest, e.1 < 1500) (hpause : 1500 ≤ pause) :
    (w.afterBurst ar json first rest).app.appended = w.app.appended ∧
    (w.afterBurst ar json first rest).app.history = w.app.history ∧
    (w.afterBurst ar json first rest).app.historyTimeout
      = some ((w.afterBurst ar json first rest).now + 1500) ∧
    (w.afterBurst ar json first rest).app.fromInput = lastValue first rest ∧
    ((w.afterBurst ar json first rest).pendingItem ar).fromVal = lastValue first rest ∧
    (World.wait ar json (w.afterBurst ar json first rest) pause).app.historyTimeout = none ∧
    (World.wait ar json (w.afterBurst ar json first rest) pause).app.appended
      = (if lastValue first rest = .nan then w.app.appended
         else (w.afterBurst ar json first rest).pendingItem ar :: w.app.appended) ∧
    (World.wait ar json (w.afterBurst ar json first rest) pause).app.history
      = (if lastValue first rest = .nan then w.app.history
         else ((w.afterBurst ar json first rest).pendingItem ar :: w.app.history).take 5) := by
  obtain ⟨f1, f2, f3, f4, f5, f6, f7⟩ := inputEvent_frame ar w.now w.app first
  have hstart : (World.edit ar w first).app.historyTimeout
      = some ((World.edit ar w first).now + 1500) := by
    simpa [World.edit] using f2
  obtain ⟨g1, g2, g3, g4, g5, g6, g7⟩ :=
    burst_frame ar json rest (World.edit ar w first) hstart hgaps
  have hin : (World.edit ar w first).app.fromInput = first := by simpa [World.edit] using f1
  have hhist : (w.afterBurst ar json first rest).app.history = w.app.history := by
    unfold World.afterBurst
    rw [g2]; simpa [World.edit] using f3
  have happ : (w.afterBurst ar json first rest).app.appended = w.app.appended := by
    unfold World.afterBurst
    rw [g3]; simpa [World.edit] using f4
  have hval : (w.afterBurst ar json first rest).app.fromInput = lastValue first rest := by
    unfold World.afterBurst
    rw [g4, hin]
  have htimer : (w.afterBurst ar json first rest).app.historyTimeout
      = some ((w.afterBurst ar json first rest).now + 1500) := g1
  have hdue : (w.afterBurst ar json first rest).now + 1500
      ≤ (w.afterBurst ar json first rest).now + pause := by omega
  refine ⟨happ, hhist, htimer, hval, ?_, ?_, ?_, ?_⟩
  · simp [World.pendingItem, historyItem, hval]
  · by_cases hnan : (w.afterBurst ar json first rest).app.fromInput = .nan
    · simp [World.wait, htimer, hdue, historyCallback, hnan]
    · simp [World.wait, htimer, hdue, historyCallback, hnan, addToHistoryUI]
  · by_cases hnan : (w.afterBurst ar json first rest).app.fromInput = .nan
    · have hl : lastValue first rest = .nan := by rw [← hval]; exact hnan
      simp [World.wait, htimer, hdue, historyCallback, hnan, hl, happ]
    · have hl : ¬ lastValue first rest = .nan := by rw [← hval]; exact hnan
      simp [World.wait, htimer, hdue, historyCallback, hnan, hl, addToHistoryUI, happ,
        World.pendingItem]
  · by_cases hnan : (w.afterBurst ar json first rest).app.fromInput = .nan
    · have hl : lastValue first rest = .nan := by rw [← hval]; exact hnan
      simp [World.wait, htimer, hdue, historyCallback, hnan, hl, hhist]
    · have hl : ¬ lastValue first rest = .nan := by rw [← hval]; exact hnan
      simp [World.wait, htimer, hdue, historyCallback, hnan, hl, addToHistoryUI, hhist,
        World.pendingItem]

theorem debounced_capture_witness :
    (∀ e ∈ [(200, JSNumber.fin 12), (300, JSNumber.fin 123)], e.1 < 1500) ∧ 1500 ≤ 1500 ∧
    (World.wait .binary64 constJson
        ((⟨metresToFeet 2, 0⟩ : World).afterBurst .binary64 constJson (.fin 1)
          [(200, .fin 12), (300, .fin 123)]) 1500).app.appended
      = (if lastValue (.fin 1) [(200, .fin 12), (300, .fin 123)] = .nan then []
         else [((⟨metresToFeet 2, 0⟩ : World).afterBurst .binary64 constJson (.fin 1)
                 [(200, .fin 12), (300, .fin 123)]).pendingItem .binary64]) :=
  ⟨by decide, by decide,
   (debounced_capture .binary64 constJson ⟨metresToFeet 2, 0⟩ (.fin 1)
      [(200, .fin 12), (300, .fin 123)] 1500 (by decide) (by decide)).2.2.2.2.2.2.1⟩

/-- C8 (amended): when an edit to a number is followed by a pause of at least
1500 ms, the item put at the front of the history has as `toVal` the text of
`toFixed(2)` applied to the displayed text read back by `parseFloat`, the
displayed text being the conversion result at the display precision; that
text has 2 fraction digits, or is `Number::toString` for a value that is not
finite or not below `10^21`. -/
theorem saved_toVal (ar : Arith) (json : Json) (w : World) (v result : JSNumber) (pause : Nat)
    (hv : v ≠ .nan) (hp0 : 0 ≤ w.app.precisionRange) (hp1 : w.app.precisionRange ≤ 100)
    (hres : conversionResult ar w.app.currentCategory v w.app.fromUnitSelect
      w.app.toUnitSelect = some result)
    (hpause : 1500 ≤ pause) :
    ((World.wait ar json (World.edit ar w v) pause).app.history.head?).map
        (fun item => item.toVal)
      = some (toFixedText (parseFloat ar (toFixedText result w.app.precisionRange.toNat)) 2) ∧
    ((∃ neg n, toFixedText (parseFloat ar (toFixedText result w.app.precisionRange.toNat)) 2
        = .fixed neg n 2) ∨
      toFixedText (parseFloat ar (toFixedText result w.app.precisionRange.toNat)) 2
        = .num (parseFloat ar (toFixedText result w.app.precisionRange.toNat))) := by
  constructor
  · obtain ⟨s', hs', hto⟩ :=
      convertValue_toInput ar { w.app with fromInput := v } result hv hp0 hp1 hres
    obtain ⟨f1, _, _, _, _, _⟩ := convertValue_frame hs'
    have hv' : ¬ s'.fromInput = .nan := by rw [f1]; exact hv
    have hdue : w.now + 1500 ≤ w.now + pause := by omega
    simp [World.wait, World.edit, inputEvent, hs', hdue, historyCallback, hv', addToHistoryUI,
      historyItem, hto]
  · cases parseFloat ar (toFixedText result w.app.precisionRange.toNat) with
    | fin q =>
      by_cases hbig : (10 : ℚ) ^ 21 ≤ |q|
      · right; simp [toFixedText, hbig]
      · left; exact ⟨decide (q < 0), fixedDigits |q| 2, by simp [toFixedText, hbig]⟩
    | inf b => right; rfl
    | nan => right; rfl

theorem saved_toVal_witness :
    ((World.wait .binary64 constJson (World.edit .binary64 ⟨metresToFeet 0, 0⟩ (.fin 1))
          1500).app.history.head?).map (fun item => item.toVal)
      = some (toFixedText (parseFloat .binary64
          (toFixedText (lit .binary64 3.28084) (metresToFeet 0).precisionRange.toNat)) 2) :=
  (saved_toVal .binary64 constJson ⟨metresToFeet 0, 0⟩ (.fin 1) (lit .binary64 3.28084) 1500
    (by decide) (by decide) (by decide) (by decide!) (by decide)).1

/-- C8 as stated fails: for 1 metre in feet (3.28084) the debounced save stores `3.00`
when the precision is 0 and `3.28` when it is 2; for 6 metres (19.68504
feet) it stores `19.68` when the precision is 3 and `19.69` when it is 2.
The conversion results rounded to 2 decimals are `3.28` and `19.69`. -/
theorem saved_toVal_depends_on_precision :
    savedToVals .binary64 0 (.fin 1) = [.fixed false 300 2] ∧
    savedToVals .binary64 2 (.fin 1) = [.fixed false 328 2] ∧
    (conversionResult .binary64 .length (.fin 1) "meters" "feet").map
        (fun result => toFixedText result 2)
      = some (.fixed false 328 2) ∧
    savedToVals .binary64 3 (.fin 6) = [.fixed false 1968 2] ∧
    savedToVals .binary64 2 (.fin 6) = [.fixed false 1969 2] ∧
    (conversionResult .binary64 .length (.fin 6) "meters" "feet").map
        (fun result => toFixedText result 2)
      = some (.fixed false 1969 2) := by
  decide!

/-- Three rapid edits (`1`, `12`, `123` metres, 200 and 300 ms apart) and a
pause: one item is appended, for 123 metres, 403.54 feet, made at time 2000;
after the edits alone nothing is appended. -/
theorem three_rapid_edits :
    ((⟨metresToFeet 2, 0⟩ : World).afterBurst .binary64 constJson (.fin 1)
        [(200, .fin 12), (300, .fin 123)]).app.appended = [] ∧
    (World.wait .binary64 constJson
        ((⟨metresToFeet 2, 0⟩ : World).afterBurst .binary64 constJson (.fin 1)
          [(200, .fin 12), (300, .fin 123)]) 1500).app.appended
      = [{ id := 2000, fromVal := .fin 123, fromUnit := "meters",
           toVal := .fixed false 40354 2, toUnit := "feet", category := .length }] := by
  decide!

/-- C10: the clear listener empties the log and removes the history key from
the store, every other key keeping its value (the theme and the last category
among them); loading from the store it leaves gives the empty log. -/
theorem clear_then_load (json : Json) (s : App) :
    (clearHistory s).history = [] ∧
    (clearHistory s).localStorage "unitflow_history" = none ∧
    (∀ key, (clearHistory s).localStorage key
      = if key = "unitflow_history" then none else s.localStorage key) ∧
    (clearHistory s).localStorage "unitflow_theme" = s.localStorage "unitflow_theme" ∧
    (clearHistory s).localStorage "unitflow_last_category"
      = s.localStorage "unitflow_last_category" ∧
    loadHistory json (clearHistory s).localStorage = .ok [] := by
  refine ⟨rfl, ?_, ?_, ?_, ?_, ?_⟩
  · simp [clearHistory, removeItem]
  · intro key
    simp [clearHistory, removeItem]
  · simp [clearHistory, removeItem]
  · simp [clearHistory, removeItem]
  · simp [loadHistory, clearHistory, removeItem]

end UnitFlow
